import Mathlib

/-!
Verification development for the pass bundle generation and signing engine
(`index.js`, the engine facade) and the fields container (`src/fields.js`).

The JavaScript source is shallowly embedded: buffers and binary strings are
modelled as Lean `String`s, JavaScript objects as insertion-ordered
association lists, and the fallible/asynchronous control flow as `Except` /
an explicit result type.  External collaborators (the `node-forge` signing
primitives and the SHA-1 digest) are taken as parameters of the embedded
functions, since they are third-party libraries, not code of this
repository; everything the repository itself does (filtering, merging,
manifest assembly, the ASN.1 `pop`, error routing) is translated directly
from the source.
-/

set_option maxRecDepth 10000

/-- The left-brace character, written via its code point. -/
def lbrace : Char := Char.ofNat 123

/-- The right-brace character, written via its code point. -/
def rbrace : Char := Char.ofNat 125

/-- JavaScript property read on an insertion-ordered object:
first entry with the given key. -/
def lookupKV {α : Type} (k : String) : List (String × α) → Option α
  | [] => none
  | (k', v) :: rest => if k' = k then some v else lookupKV k rest

/-- JavaScript property assignment `o[k] = v` on an insertion-ordered
object: an existing key keeps its position and gets the new value, a new
key is appended at the end. -/
def setProp {α : Type} (kvs : List (String × α)) (k : String) (v : α) : List (String × α) :=
  match kvs with
  | [] => [(k, v)]
  | (k', v') :: rest => if k' = k then (k, v) :: rest else (k', v') :: setProp rest k v

/-- JSON values (the subset exchanged by this program: `pass.json`
documents and manifest mappings).  Objects are insertion-ordered
association lists, numbers are integers (the documents handled by the
engine use integral numbers). -/
inductive JVal where
  | jnull
  | jbool (b : Bool)
  | jnum (n : Int)
  | jstr (s : String)
  | jarr (items : List JVal)
  | jobj (members : List (String × JVal))

/-- JavaScript truthiness (`!!v`) of a JSON value.  `undefined` is
modelled by absence (`Option.none`) at use sites. -/
def truthy : JVal → Bool
  | .jnull => false
  | .jbool b => b
  | .jnum n => n != 0
  | .jstr s => !s.isEmpty
  | .jarr _ => true
  | .jobj _ => true

/-- JavaScript `typeof` of a JSON value (note `typeof null` is
`"object"`). -/
def jsTypeof : JVal → String
  | .jnull => "object"
  | .jbool _ => "boolean"
  | .jnum _ => "number"
  | .jstr _ => "string"
  | .jarr _ => "object"
  | .jobj _ => "object"

/-- String escaping used by `JSON.stringify` (the characters appearing in
this program's file names and digests only need quote and backslash). -/
def escChar (c : Char) : String :=
  if c = '"' then "\\\""
  else if c = '\\' then "\\\\"
  else String.singleton c

/-- Quote a string as `JSON.stringify` does. -/
def quoteStr (s : String) : String :=
  "\"" ++ String.join (s.data.map escChar) ++ "\""

mutual

/-- Compact serialization, as `JSON.stringify` produces (no added
whitespace; object members in insertion order). -/
def stringifyJVal : JVal → String
  | .jnull => "null"
  | .jbool b => if b then "true" else "false"
  | .jnum n => toString n
  | .jstr s => quoteStr s
  | .jarr xs => "[" ++ stringifyItems xs ++ "]"
  | .jobj kvs => String.singleton lbrace ++ stringifyMembers kvs ++ String.singleton rbrace

/-- Comma-separated serialization of array items. -/
def stringifyItems : List JVal → String
  | [] => ""
  | [x] => stringifyJVal x
  | x :: y :: rest => stringifyJVal x ++ "," ++ stringifyItems (y :: rest)

/-- Comma-separated serialization of object members. -/
def stringifyMembers : List (String × JVal) → String
  | [] => ""
  | [(k, v)] => quoteStr k ++ ":" ++ stringifyJVal v
  | (k, v) :: m :: rest =>
      quoteStr k ++ ":" ++ stringifyJVal v ++ "," ++ stringifyMembers (m :: rest)

end

/-- Whitespace skipping of the JSON grammar. -/
def skipWs : List Char → List Char
  | [] => []
  | c :: rest =>
      if c = ' ' || c = '\n' || c = '\t' || c = '\r' then skipWs rest else c :: rest

/-- Body of a JSON string literal after the opening quote (plain
characters plus the two escapes this program's documents use). -/
def parseStrBody (fuel : Nat) (cs : List Char) (acc : List Char) :
    Except String (String × List Char) :=
  match fuel, cs with
  | 0, _ => .error "JSON.parse: fuel exhausted"
  | _ + 1, [] => .error "JSON.parse: unterminated string"
  | f + 1, c :: rest =>
      if c = '"' then .ok (String.mk acc.reverse, rest)
      else if c = '\\' then
        match rest with
        | '"' :: r2 => parseStrBody f r2 ('"' :: acc)
        | '\\' :: r2 => parseStrBody f r2 ('\\' :: acc)
        | _ => .error "JSON.parse: unsupported escape"
      else parseStrBody f rest (c :: acc)

/-- Decimal digit run of a JSON number. -/
def parseDigits (fuel : Nat) (cs : List Char) (acc : Nat) (seen : Bool) :
    Except String (Nat × List Char) :=
  match fuel, cs with
  | 0, _ => .error "JSON.parse: fuel exhausted"
  | _ + 1, [] => if seen then .ok (acc, []) else .error "JSON.parse: expected digit"
  | f + 1, c :: rest =>
      if c.isDigit then parseDigits f rest (acc * 10 + (c.toNat - 48)) true
      else if seen then .ok (acc, c :: rest)
      else .error "JSON.parse: expected digit"

mutual

/-- Recursive-descent JSON value parser (the engine's `JSON.parse`),
fuelled for termination. -/
def parseValue (fuel : Nat) (cs : List Char) : Except String (JVal × List Char) :=
  match fuel with
  | 0 => .error "JSON.parse: fuel exhausted"
  | f + 1 =>
      match skipWs cs with
      | [] => .error "JSON.parse: unexpected end of input"
      | c :: rest =>
          if c = 'n' then
            if List.isPrefixOf "ull".data rest then .ok (.jnull, rest.drop 3)
            else .error "JSON.parse: bad literal"
          else if c = 't' then
            if List.isPrefixOf "rue".data rest then .ok (.jbool true, rest.drop 3)
            else .error "JSON.parse: bad literal"
          else if c = 'f' then
            if List.isPrefixOf "alse".data rest then .ok (.jbool false, rest.drop 4)
            else .error "JSON.parse: bad literal"
          else if c = '"' then
            match parseStrBody f rest [] with
            | .ok (s, r2) => .ok (.jstr s, r2)
            | .error e => .error e
          else if c = '-' then
            match parseDigits f rest 0 false with
            | .ok (n, r2) => .ok (.jnum (-(n : Int)), r2)
            | .error e => .error e
          else if c.isDigit then
            match parseDigits f (c :: rest) 0 false with
            | .ok (n, r2) => .ok (.jnum (n : Int), r2)
            | .error e => .error e
          else if c = '[' then
            match skipWs rest with
            | ']' :: r2 => .ok (.jarr [], r2)
            | cs2 => parseItems f cs2 []
          else if c = lbrace then
            match skipWs rest with
            | c2 :: r2 =>
                if c2 = rbrace then .ok (.jobj [], r2)
                else parseMembers f (c2 :: r2) []
            | [] => .error "JSON.parse: unexpected end of input"
          else .error "JSON.parse: unexpected character"

/-- Items of a (non-empty) JSON array. -/
def parseItems (fuel : Nat) (cs : List Char) (acc : List JVal) :
    Except String (JVal × List Char) :=
  match fuel with
  | 0 => .error "JSON.parse: fuel exhausted"
  | f + 1 =>
      match parseValue f cs with
      | .error e => .error e
      | .ok (v, rest) =>
          match skipWs rest with
          | ',' :: r2 => parseItems f r2 (acc ++ [v])
          | ']' :: r2 => .ok (.jarr (acc ++ [v]), r2)
          | _ => .error "JSON.parse: expected comma or close bracket"

/-- Members of a (non-empty) JSON object; member order is source order,
as `JSON.parse` preserves it. -/
def parseMembers (fuel : Nat) (cs : List Char) (acc : List (String × JVal)) :
    Except String (JVal × List Char) :=
  match fuel with
  | 0 => .error "JSON.parse: fuel exhausted"
  | f + 1 =>
      match skipWs cs with
      | '"' :: r1 =>
          match parseStrBody f r1 [] with
          | .error e => .error e
          | .ok (k, r2) =>
              match skipWs r2 with
              | ':' :: r3 =>
                  match parseValue f r3 with
                  | .error e => .error e
                  | .ok (v, r4) =>
                      match skipWs r4 with
                      | ',' :: r5 => parseMembers f r5 (acc ++ [(k, v)])
                      | c :: r5 =>
                          if c = rbrace then .ok (.jobj (acc ++ [(k, v)]), r5)
                          else .error "JSON.parse: expected comma or close brace"
                      | [] => .error "JSON.parse: unexpected end of input"
              | _ => .error "JSON.parse: expected colon"
      | _ => .error "JSON.parse: expected member key"

end

/-- Whole-input JSON parsing (the engine's `JSON.parse`): one value,
then only trailing whitespace. -/
def parseJson (s : String) : Except String JVal :=
  match parseValue (2 * s.length + 10) s.data with
  | .error e => .error e
  | .ok (v, rest) =>
      match skipWs rest with
      | [] => .ok v
      | _ => .error "JSON.parse: unexpected trailing characters"

/-- The allow-list table of `filterPassOptions` (`index.js` lines 186-193):
the six recognized keys, each with an optional validator predicate.  In the
source all six validators are `null` (modelled as `none`). -/
def supportedOptions : List (String × Option (JVal → Bool)) :=
  [("serialNumber", none), ("userInfo", none), ("expirationDate", none),
   ("locations", none), ("authenticationToken", none), ("barcode", none)]

/-- The acceptance condition of `filterPassOptions` for one key
(`index.js` line 199): a `null` table entry accepts unconditionally
(`!supportedOptions[key]` is true), a registered validator function must
return a truthy value on the supplied option. -/
def validatorOk (t : Option (JVal → Bool)) (v : JVal) : Bool :=
  match t with
  | none => true
  | some f => f v

/-- `filterPassOptions` generalized over the validator table it iterates
(the source iterates `Object.keys(supportedOptions)` in insertion order and
assigns `options[key] = query[key]` for each accepted key; with the
distinct keys of the source table, the successive assignments build the
output in table order). -/
def filterPassOptionsGen (table : List (String × Option (JVal → Bool)))
    (query : List (String × JVal)) : List (String × JVal) :=
  match table with
  | [] => []
  | (k, t) :: rest =>
      match lookupKV k query with
      | some v =>
          if truthy v && validatorOk t v then (k, v) :: filterPassOptionsGen rest query
          else filterPassOptionsGen rest query
      | none => filterPassOptionsGen rest query

/-- `filterPassOptions` (`index.js` lines 185-206) with the source's
table. -/
def filterPassOptions (query : List (String × JVal)) : List (String × JVal) :=
  filterPassOptionsGen supportedOptions query

/-- The `for (prop in options) passFile[prop] = options[prop]` merge loop
of `editPassStructure` (`index.js` lines 226-228) on a parsed document.
Assignment on a non-object primitive or an array is silently absorbed by
serialization, so those documents re-serialize unchanged (the `null`
document, on which assignment throws, is handled by the caller). -/
def applyProps (j : JVal) (opts : List (String × JVal)) : JVal :=
  match j with
  | .jobj kvs => .jobj (opts.foldl (fun acc kv => setProp acc kv.1 kv.2) kvs)
  | other => other

/-- `editPassStructure` (`index.js` lines 217-235).  A falsy `options`
argument (`undefined`/`null`, modelled `none`) resolves with the buffer
untouched; any present object — including the empty one, which is truthy
in JavaScript — parses the buffer, merges, and re-serializes.  A parse
failure (or the `TypeError` of assigning onto a parsed `null`) is the
promise rejection. -/
def editPassStructure (options : Option (List (String × JVal))) (passBuffer : String) :
    Except String String :=
  match options with
  | none => .ok passBuffer
  | some opts =>
      match parseJson passBuffer with
      | .error e => .error e
      | .ok j =>
          match j, opts with
          | .jnull, _ :: _ => .error "TypeError: cannot set property of null"
          | _, _ => .ok (stringifyJVal (applyProps j opts))

/-- `editPassStructure` applied to the result of `fs.readFile` for
`pass.json`: a read error leaves the buffer `undefined`, and
`undefined.toString` inside the merge promise throws a `TypeError`, which
the promise rejects with. -/
def editPassStructureB (options : Option (List (String × JVal))) (passBuffer : Option String) :
    Except String String :=
  match passBuffer with
  | none => .error "TypeError: cannot read property of undefined"
  | some b => editPassStructure options b

/-- `removeHiddenFiles` (`index.js` lines 30-32): keep the names whose
first character is not a dot (`charAt(0)` of the empty string is the empty
string, which differs from the dot). -/
def removeHiddenFiles (names : List String) : List String :=
  names.filter (fun e =>
    match e.data with
    | [] => true
    | c :: _ => c != '.')

/-- Substring containment on character lists (the semantics of an
unanchored regular-expression literal test). -/
def containsSub (pat : List Char) : List Char → Bool
  | [] => List.isPrefixOf pat []
  | c :: t => List.isPrefixOf pat (c :: t) || containsSub pat t

/-- Lowercasing for the case-insensitive regex flag. -/
def lcChars (s : String) : List Char := s.data.map Char.toLower

/-- The exclusion test `/(manifest|signature|pass)/ig.test(file)` of
`generatePass` (`index.js` line 301). -/
def exclMatch (f : String) : Bool :=
  containsSub "manifest".data (lcChars f) ||
  containsSub "signature".data (lcChars f) ||
  containsSub "pass".data (lcChars f)

/-- Components of the `contentInfo.value` list of a signed-data structure
as built by the signing library: the content-type object identifier, the
node wrapping the signed content bytes, and an abstract stand-in for any
other component. -/
inductive Asn1Elem where
  | oid
  | contentNode (bytes : String)
  | other (n : Nat)
deriving DecidableEq

/-- The in-memory signed-data structure right after `signature.sign()`:
the `contentInfo.value` list the source mutates, plus an abstract
remainder (certificates, signer infos, digests) the source leaves
untouched. -/
structure SignedState where
  contentInfoValue : List Asn1Elem
  rest : Nat
deriving DecidableEq

/-- The mutation `signature.contentInfo.value.pop()` (`index.js` line
145): `Array.prototype.pop` removes exactly the last element; everything
else in the structure is untouched. -/
def popContentInfo (st : SignedState) : SignedState :=
  { st with contentInfoValue := st.contentInfoValue.dropLast }

/-- Content selection of `createSignature` (`index.js` lines 103-109):
a value of `typeof` `"object"` (which includes `null` and arrays) is
serialized with `JSON.stringify`, a string is used as is, anything else
throws. -/
def jsContentOf (manifest : JVal) : Option String :=
  if jsTypeof manifest = "object" then some (stringifyJVal manifest)
  else
    match manifest with
    | .jstr s => some s
    | _ => none

/-- `createSignature` (`index.js` lines 100-151), with the signing
library's primitives as parameters: `sign` maps the content bytes to the
post-`sign()` structure under the fixed identity material, and `toDer` is
the definite-length (DER) encoder `forge.asn1.toDer`.  The repository's
own steps — content selection, the type error, the `pop` of the trailing
`contentInfo.value` element, and the final encoding — are translated
directly. -/
def createSignature (sign : String → SignedState) (toDer : SignedState → String)
    (manifest : JVal) : Except String String :=
  match jsContentOf manifest with
  | some content => .ok (toDer (popContentInfo (sign content)))
  | none =>
      .error ("Manifest content must be a string or an object. Unable to accept manifest of type "
        ++ jsTypeof manifest)

/-- An on-disk model directory as `generatePass` observes it: the
`fs.readdir` listing and the readable file contents (a listed name absent
from `contents` models a file whose read stream errors). -/
structure ModelDir where
  files : List String
  contents : List (String × String)
deriving DecidableEq

/-- The `options` argument of `generatePass`: `modelName` is `none` when
absent (and the empty string is falsy, rejected the same way), `overrides`
is `none` when the key is absent or falsy. -/
structure GenOptions where
  modelName : Option String
  overrides : Option (List (String × JVal))

/-- Observable outcome of one `generatePass` call: fulfilment with the
archive entries (name, bytes) and the manifest mapping, rejection with the
`{ status: false, error: { message, ecode } }` payload, or an exception
escaping into an asynchronous callback so that the returned promise never
settles. -/
inductive GenResult where
  | success (archive : List (String × String)) (manifest : List (String × String))
  | rejected (message : String) (ecode : Nat)
  | crashed (message : String)
deriving DecidableEq

/-- Rejection message for a missing or falsy or non-string `modelName`
(`index.js` line 251). -/
def msgNoModelName : String :=
  "A string model name must be provided in order to continue."

/-- Rejection message when `fs.readdir` fails on the model directory
(`index.js` line 262). -/
def msgNoModel : String :=
  "Provided model name doesn't match with any model in the folder."

/-- Rejection message for an empty (after hidden-file removal) model
directory (`index.js` line 274). -/
def msgUninitialized : String :=
  "Model provided matched but unitialized. Refer to https://apple.co/2IhJr0Q to fill the model correctly."

/-- Rejection message for a model directory without `pass.json`
(`index.js` line 284). -/
def msgTeapot : String :=
  "I'm a teapot. How am I supposed to serve you pass without pass.json in the chosen model as tea without water?"

/-- Rejection message of the per-file digest aggregation (`index.js` line
327). -/
def msgManifest (e : String) : String :=
  "Unable to compile manifest. " ++ e

/-- Rejection message of the descriptor-merge catch handler (`index.js`
line 352). -/
def msgCatch (e : String) : String :=
  "pass.json Buffer is not a valid buffer. Unable to continue.\n" ++ e

/-- The `TypeError` thrown by `filterPassOptions(undefined)` — reading
`query[key]` on `undefined` — inside the `fs.readFile` callback. -/
def msgOverridesTypeError : String :=
  "TypeError: cannot read properties of undefined"

/-- Sequential reads of the listed files (each file is streamed through
the digest and independently re-read by the archiver; both observe the
same on-disk bytes, so one read per name models both).  A name with no
readable content is the stream error that aborts the whole manifest
build. -/
def readFiles (contents : List (String × String)) : List String →
    Except String (List (String × String))
  | [] => .ok []
  | n :: rest =>
      match lookupKV n contents with
      | none => .error ("Error: ENOENT, open '" ++ n ++ "'")
      | some b =>
          match readFiles contents rest with
          | .ok l => .ok ((n, b) :: l)
          | .error e => .error e

/-- The manifest mapping as a JSON object (string digests in insertion
order), ready for `JSON.stringify`. -/
def manifestToJ (man : List (String × String)) : JVal :=
  .jobj (man.map (fun p => (p.1, .jstr p.2)))

/-- `generatePass` (`index.js` lines 245-360).  Parameters beyond the
source's own `options`: `sign`/`toDer` are the signing-library primitives
under the fixed loaded identity material, `sha1` is the hex SHA-1 digest
(`forge.md.sha1`, lowercase hex of the streamed bytes), `fs` maps a model
name to its `<name>.pass` directory (`none` models the `fs.readdir`
error), and `order` is the completion order of the concurrent per-file
digest streams — the source inserts `manifest[file]` on each stream's
`end` event, so the manifest's insertion order is the completion order,
which the event loop does not fix; the archive entries themselves are
appended in listing order, synchronously at iteration time. -/
def generatePass (sign : String → SignedState) (toDer : SignedState → String)
    (sha1 : String → String) (fs : List (String × ModelDir))
    (opts : GenOptions) (order : List String) : GenResult :=
  match opts.modelName with
  | none => .rejected msgNoModelName 418
  | some name =>
      if name = "" then .rejected msgNoModelName 418
      else
        match lookupKV name fs with
        | none => .rejected msgNoModel 418
        | some md =>
            let list := removeHiddenFiles md.files
            if list.isEmpty then .rejected msgUninitialized 418
            else if !(list.contains "pass.json") then .rejected msgTeapot 418
            else
              match opts.overrides with
              | none => .crashed msgOverridesTypeError
              | some q =>
                  match editPassStructureB (some (filterPassOptions q))
                      (lookupKV "pass.json" md.contents) with
                  | .error e => .rejected (msgCatch e) 418
                  | .ok passFileBuffer =>
                      let eligible := list.filter (fun f => !(exclMatch f))
                      match readFiles md.contents eligible,
                            readFiles md.contents order with
                      | .ok assets, .ok hashed =>
                          let manifest :=
                            ("pass.json", sha1 passFileBuffer) ::
                              hashed.map (fun p => (p.1, sha1 p.2))
                          match createSignature sign toDer (manifestToJ manifest) with
                          | .ok sig =>
                              .success
                                ((("pass.json", passFileBuffer) :: assets) ++
                                  [("manifest.json", stringifyJVal (manifestToJ manifest)),
                                   ("signature", sig)])
                                manifest
                          | .error e => .crashed e
                      | .error e, _ => .rejected (msgManifest e) 418
                      | .ok _, .error e => .rejected (msgManifest e) 418

/-- The process-wide `Certificates` record of `index.js`: `status` is the
initialize-once guard; the loaded material itself is irrelevant to the
guard and abstracted to a counter. -/
structure CertState where
  status : Bool
  material : Nat
deriving DecidableEq

/-- The error message of a repeated initialization (`index.js` line
364). -/
def msgInitOnce : String := "Initialization must be triggered only once."

/-- The error message of a missing or empty configuration object
(`index.js` line 368). -/
def msgBadConfig : String :=
  "Cannot initialize PassKit module. Param 0 expects a non-empty configuration object."

/-- The synchronous guard of `init` (`index.js` lines 362-369): a second
initialization attempt after the module was marked ready throws, before
any identity material is loaded again; then the configuration object must
be present, of object type, and non-empty. -/
def initGuard (st : CertState) (config : Option (List (String × JVal))) :
    Except String Unit :=
  if st.status then .error msgInitOnce
  else
    match config with
    | none => .error msgBadConfig
    | some kvs => if kvs.isEmpty then .error msgBadConfig else .ok ()

/-- The completion step of a successful first initialization
(`index.js` line 395): the module is marked ready. -/
def markReady (st : CertState) : CertState := { st with status := true }

/-- A candidate pass field as `FieldsContainer.push` inspects it: its
`key` property, whether it is of object type, and whether it satisfies
the field schema (`schema.isValid(f, "field")`; the schema module is not
part of the sources under inspection, so its verdict is carried as a
per-field datum the container logic is proved for all values of). -/
structure PassField where
  key : String
  isObj : Bool
  schemaOk : Bool
deriving DecidableEq

/-- The validation `typeof f === "object" && schema.isValid(f, "field")`
of `fields.js` line 36. -/
def fieldValid (f : PassField) : Bool := f.isObj && f.schemaOk

/-- The `FieldsContainer` state (`fields.js` lines 9-12). -/
structure FieldsContainer where
  uniqueKeys : List String
  fields : List PassField
deriving DecidableEq

/-- A freshly constructed container. -/
def emptyFC : FieldsContainer := ⟨[], []⟩

/-- The filter callback loop of `FieldsContainer.push` (`fields.js` lines
29-37), with its side effect on `uniqueKeys` threaded explicitly: a
candidate whose key is already registered is dropped; otherwise its key is
registered first and the candidate is kept only if it validates. -/
def pushScan (uks : List String) : List PassField → List String × List PassField
  | [] => (uks, [])
  | f :: rest =>
      if f.key ∈ uks then pushScan uks rest
      else if fieldValid f then
        ((pushScan (uks ++ [f.key]) rest).1, f :: (pushScan (uks ++ [f.key]) rest).2)
      else pushScan (uks ++ [f.key]) rest

/-- `FieldsContainer.push` (`fields.js` lines 24-42) on the (possibly
array-unwrapped) candidate list: the surviving candidates are appended to
`fields` and their number is returned. -/
def pushFC (c : FieldsContainer) (fs : List PassField) : FieldsContainer × Nat :=
  let res := pushScan c.uniqueKeys fs
  (⟨res.1, c.fields ++ res.2⟩, res.2.length)

/-- A sequence of `push` calls starting from a given container. -/
def applyPushes (c : FieldsContainer) (batches : List (List PassField)) : FieldsContainer :=
  batches.foldl (fun c b => (pushFC c b).1) c

/-- Sample signing primitive for concrete runs: the post-`sign()`
structure carries the content-type OID and the wrapped content, plus an
abstract remainder. -/
def signEx (c : String) : SignedState := ⟨[.oid, .contentNode c], 7⟩

/-- Sample definite-length encoder for concrete runs (injective on the
states produced here). -/
def toDerEx (st : SignedState) : String :=
  String.join (st.contentInfoValue.map (fun e =>
    match e with
    | .oid => "oid;"
    | .contentNode s => "c:" ++ s ++ ";"
    | .other n => toString n ++ ";")) ++ "r" ++ toString st.rest

/-- Sample digest stand-in for concrete runs (the engine is proved for
every digest function; concrete instances use the byte length). -/
def sha1Ex (s : String) : String := toString s.length

/-- Sample model directory: descriptor plus two asset files. -/
def mdEx : ModelDir :=
  ⟨["pass.json", "icon.png", "logo.png"],
   [("pass.json", "\x7b\x7d"), ("icon.png", "AA"), ("logo.png", "BB")]⟩

/-- Sample models root with one model. -/
def fsEx : List (String × ModelDir) := [("m", mdEx)]

/-- Sample models root whose model directory lacks `pass.json`. -/
def fs2Ex : List (String × ModelDir) := [("m2", ⟨["icon.png"], [("icon.png", "AA")]⟩)]

/-- Sample request with an empty (but present) override object. -/
def optsEx : GenOptions := ⟨some "m", some []⟩

/-- Archive entries of a settled `generatePass` outcome (empty for a
non-fulfilled one). -/
def archiveOf : GenResult → List (String × String)
  | .success ar _ => ar
  | _ => []

/-- Whether a `generatePass` outcome is a fulfilment. -/
def isSuccess : GenResult → Bool
  | .success _ _ => true
  | _ => false

/-- `lookupKV` distributes over append: the left list is consulted
first. -/
theorem lookupKV_append {α : Type} (k : String) (l₁ l₂ : List (String × α)) :
    lookupKV k (l₁ ++ l₂) =
      (match lookupKV k l₁ with
       | some v => some v
       | none => lookupKV k l₂) := by
  induction l₁ with
  | nil => simp [lookupKV]
  | cons p rest ih =>
      obtain ⟨k', v'⟩ := p
      by_cases hk : k' = k <;> simp [lookupKV, hk, ih]

/-- `lookupKV` misses when no entry carries the key. -/
theorem lookupKV_eq_none {α : Type} (k : String) (l : List (String × α))
    (h : ∀ p ∈ l, p.1 ≠ k) : lookupKV k l = none := by
  induction l with
  | nil => rfl
  | cons p rest ih =>
      obtain ⟨k', v'⟩ := p
      have hk : k' ≠ k := h (k', v') (List.mem_cons_self _ _)
      simp [lookupKV, hk]
      exact ih (fun q hq => h q (List.mem_cons_of_mem _ hq))

/-- `lookupKV` on a tabulated association list. -/
theorem lookupKV_map_fn {α : Type} (k : String) (names : List String) (g : String → α) :
    lookupKV k (names.map (fun n => (n, g n))) =
      if k ∈ names then some (g k) else none := by
  induction names with
  | nil => simp [lookupKV]
  | cons n rest ih =>
      by_cases hk : n = k
      · subst hk; simp [lookupKV]
      · simp [lookupKV, hk, ih, Ne.symm hk]

/-- A successful `readFiles` returns exactly the tabulated contents of
the requested names, in request order. -/
theorem readFiles_ok {contents : List (String × String)} :
    ∀ {names : List String} {l : List (String × String)},
      readFiles contents names = Except.ok l →
      l = names.map (fun n => (n, (lookupKV n contents).getD "")) := by
  intro names
  induction names with
  | nil => intro l h; simp [readFiles] at h; simp [h.symm]
  | cons n rest ih =>
      intro l h
      simp only [readFiles] at h
      cases hc : lookupKV n contents with
      | none => rw [hc] at h; simp at h
      | some b =>
          rw [hc] at h
          cases hr : readFiles contents rest with
          | error e => rw [hr] at h; simp at h
          | ok l' =>
              rw [hr] at h
              simp only [Except.ok.injEq] at h
              subst h
              simp [hc, ih hr]

/-- `createSignature` on an object-typed manifest: the content is its
`JSON.stringify` serialization and the result is the definite-length
encoding of the signed structure with the trailing `contentInfo.value`
element popped. -/
theorem createSignature_jobj (sign : String → SignedState) (toDer : SignedState → String)
    (kvs : List (String × JVal)) :
    createSignature sign toDer (JVal.jobj kvs) =
      Except.ok (toDer (popContentInfo (sign (stringifyJVal (JVal.jobj kvs))))) := rfl

/-- Inversion of a fulfilled `generatePass` call: the options named an
existing non-empty model with `pass.json`, overrides were present, the
descriptor merge succeeded, all eligible files were readable, and the
archive and manifest have the stated shapes. -/
theorem generatePass_success_inv
    (sign : String → SignedState) (toDer : SignedState → String)
    (sha1 : String → String) (fs : List (String × ModelDir))
    (opts : GenOptions) (order : List String)
    (ar man : List (String × String))
    (h : generatePass sign toDer sha1 fs opts order = .success ar man) :
    ∃ name md q passFileBuffer assets hashed,
      opts.modelName = some name ∧ name ≠ "" ∧
      lookupKV name fs = some md ∧
      opts.overrides = some q ∧
      editPassStructureB (some (filterPassOptions q)) (lookupKV "pass.json" md.contents) =
        .ok passFileBuffer ∧
      readFiles md.contents ((removeHiddenFiles md.files).filter (fun f => !(exclMatch f))) =
        .ok assets ∧
      readFiles md.contents order = .ok hashed ∧
      man = ("pass.json", sha1 passFileBuffer) :: hashed.map (fun p => (p.1, sha1 p.2)) ∧
      ar = (("pass.json", passFileBuffer) :: assets) ++
        [("manifest.json", stringifyJVal (manifestToJ man)),
         ("signature", toDer (popContentInfo (sign (stringifyJVal (manifestToJ man)))))] := by
  simp only [generatePass] at h
  split at h
  · simp at h
  rename_i name hModelName
  split at h
  · simp at h
  rename_i hname
  split at h
  · simp at h
  rename_i md hmd
  split at h
  · simp at h
  rename_i hEmpty
  split at h
  · simp at h
  rename_i hPass
  split at h
  · simp at h
  rename_i q hq
  split at h
  · simp at h
  rename_i passFileBuffer hedit
  split at h
  case _ =>
    rename_i assets hashed hassets hhashed
    split at h
    case _ =>
      rename_i sig hsig
      injection h with har hman
      subst hman
      refine ⟨name, md, q, passFileBuffer, assets, hashed, hModelName, hname, hmd, hq,
        hedit, hassets, hhashed, rfl, ?_⟩
      rw [← har]
      have hsig2 : Except.ok (ε := String)
          (toDer (popContentInfo (sign (stringifyJVal (manifestToJ
            (("pass.json", sha1 passFileBuffer) ::
              hashed.map (fun p => (p.1, sha1 p.2)))))))) = Except.ok sig := by
        rw [← hsig]
        rfl
      injection hsig2 with h2
      rw [h2]
    case _ => simp at h
  all_goals simp at h

/-- Key lookup in an archive of the shape `generatePass` produces, for a
key that is neither the descriptor nor present among the assets. -/
theorem lookupKV_archive (k : String) (pfb : String) (assets : List (String × String))
    (M S : String) (hk1 : k ≠ "pass.json") (hnone : lookupKV k assets = none) :
    lookupKV k ((("pass.json", pfb) :: assets) ++ [("manifest.json", M), ("signature", S)]) =
      if "manifest.json" = k then some M else if "signature" = k then some S else none := by
  rw [List.cons_append]
  simp only [lookupKV]
  rw [if_neg (fun he => hk1 he.symm)]
  rw [lookupKV_append, hnone]
  simp only [lookupKV]

/-- First components of a tabulated association list. -/
theorem map_fst_tabulate {α : Type} (names : List String) (g : String → α) :
    (names.map (fun n => (n, g n))).map Prod.fst = names := by
  induction names with
  | nil => rfl
  | cons n rest ih => simp only [List.map_cons, ih]

/-- C1: on every fulfilled `generate(options)` call, the byte sequence
the detached signature is computed over — the content handed to the
signing primitive inside `createSignature` — is exactly the byte sequence
archived under the name `manifest.json`: the `signature` archive entry is
the encoding of the signed structure whose content is the very bytes
found under `manifest.json` in the same archive. -/
theorem claim1_signature_over_archived_manifest_bytes
    (sign : String → SignedState) (toDer : SignedState → String)
    (sha1 : String → String) (fs : List (String × ModelDir))
    (opts : GenOptions) (order : List String) (ar man : List (String × String))
    (h : generatePass sign toDer sha1 fs opts order = .success ar man) :
    lookupKV "signature" ar =
      (lookupKV "manifest.json" ar).map (fun m => toDer (popContentInfo (sign m))) := by
  obtain ⟨name, md, q, pfb, assets, hashed, _, _, _, _, _, hassets, _, _, harEq⟩ :=
    generatePass_success_inv sign toDer sha1 fs opts order ar man h
  subst harEq
  have hkeys : assets.map Prod.fst =
      (removeHiddenFiles md.files).filter (fun f => !(exclMatch f)) := by
    rw [readFiles_ok hassets]
    exact map_fst_tabulate _ _
  have hnone : ∀ s : String, exclMatch s = true → lookupKV s assets = none := by
    intro s hs
    apply lookupKV_eq_none
    intro p hp hps
    have hmem : p.1 ∈ assets.map Prod.fst := List.mem_map_of_mem _ hp
    rw [hkeys, hps] at hmem
    have hfm := (List.mem_filter.mp hmem).2
    rw [hs] at hfm
    simp at hfm
  rw [lookupKV_archive _ _ _ _ _ (by decide) (hnone _ (by decide)),
      lookupKV_archive _ _ _ _ _ (by decide) (hnone _ (by decide))]
  simp

/-- Manifest of the sample run (digest stand-in: byte length). -/
def manEx : List (String × String) := [("pass.json", "2"), ("icon.png", "2"), ("logo.png", "2")]

/-- Serialized manifest bytes of the sample run. -/
def mstrEx : String := "\x7b\"pass.json\":\"2\",\"icon.png\":\"2\",\"logo.png\":\"2\"\x7d"

/-- Archive of the sample run. -/
def arEx : List (String × String) :=
  [("pass.json", "\x7b\x7d"), ("icon.png", "AA"), ("logo.png", "BB"),
   ("manifest.json", mstrEx), ("signature", "oid;r7")]

/-- Witness for C1: the sample run fulfils, and its `signature` entry is
the encoding of the signed structure over exactly the archived
`manifest.json` bytes. -/
theorem claim1_witness :
    lookupKV "signature" arEx =
      (lookupKV "manifest.json" arEx).map (fun m => toDerEx (popContentInfo (signEx m))) :=
  claim1_signature_over_archived_manifest_bytes signEx toDerEx sha1Ex fsEx optsEx
    ["icon.png", "logo.png"] arEx manEx (by decide)

/-- C2: for every manifest accepted by `createSignature` (and fixed
identity material, carried by the signing primitive), exactly one
trailing element — the last of the signed structure's
`contentInfo.value` list — is removed after signing and before encoding:
the kept list followed by that one element is the original list, the rest
of the structure is unchanged, and the returned bytes are the
definite-length encoding of the resulting structure. -/
theorem claim2_pop_exactly_one_trailing_element
    (sign : String → SignedState) (toDer : SignedState → String)
    (manifest : JVal) (content : String)
    (hc : jsContentOf manifest = some content)
    (hne : (sign content).contentInfoValue ≠ []) :
    ∃ st' lastE,
      createSignature sign toDer manifest = Except.ok (toDer st') ∧
      st'.rest = (sign content).rest ∧
      (sign content).contentInfoValue = st'.contentInfoValue ++ [lastE] ∧
      st'.contentInfoValue.length + 1 = (sign content).contentInfoValue.length := by
  refine ⟨popContentInfo (sign content), (sign content).contentInfoValue.getLast hne,
    ?_, rfl, ?_, ?_⟩
  · simp [createSignature, hc]
  · exact (List.dropLast_append_getLast hne).symm
  · have hpos : 0 < (sign content).contentInfoValue.length := List.length_pos.mpr hne
    simp only [popContentInfo, List.length_dropLast]
    omega

/-- Witness for C2 at a concrete manifest object and signing
primitive. -/
theorem claim2_witness :
    ∃ st' lastE,
      createSignature signEx toDerEx (JVal.jobj []) = Except.ok (toDerEx st') ∧
      st'.rest = (signEx "\x7b\x7d").rest ∧
      (signEx "\x7b\x7d").contentInfoValue = st'.contentInfoValue ++ [lastE] ∧
      st'.contentInfoValue.length + 1 = (signEx "\x7b\x7d").contentInfoValue.length :=
  claim2_pop_exactly_one_trailing_element signEx toDerEx (JVal.jobj []) "\x7b\x7d"
    rfl (by decide)

/-- C3: on a fulfilled run against an accepted model, the manifest has
exactly N+1 entries, where N counts the non-hidden files not matching the
exclusion pattern: one entry per eligible file whose value is the digest
of that file's bytes, plus the entry under the fixed name `pass.json`
digesting the merged descriptor bytes (the output of the merge step, not
the base file); keys are pairwise distinct, and every key is either
`pass.json` or an eligible (non-hidden, non-excluded) listed file. -/
theorem claim3_manifest_entries
    (sign : String → SignedState) (toDer : SignedState → String)
    (sha1 : String → String) (fs : List (String × ModelDir))
    (opts : GenOptions) (order : List String) (ar man : List (String × String))
    (name : String) (md : ModelDir) (q : List (String × JVal))
    (hname : opts.modelName = some name)
    (hmd : lookupKV name fs = some md)
    (hq : opts.overrides = some q)
    (hnd : md.files.Nodup)
    (hperm : order.Perm ((removeHiddenFiles md.files).filter (fun f => !(exclMatch f))))
    (h : generatePass sign toDer sha1 fs opts order = .success ar man) :
    man.length = ((removeHiddenFiles md.files).filter (fun f => !(exclMatch f))).length + 1 ∧
    (man.map Prod.fst).Nodup ∧
    (∃ b, editPassStructureB (some (filterPassOptions q)) (lookupKV "pass.json" md.contents) =
        Except.ok b ∧ lookupKV "pass.json" man = some (sha1 b)) ∧
    (∀ f c, f ∈ removeHiddenFiles md.files → exclMatch f = false →
      lookupKV f md.contents = some c → lookupKV f man = some (sha1 c)) ∧
    (∀ p ∈ man, p.1 = "pass.json" ∨
      (p.1 ∈ removeHiddenFiles md.files ∧ exclMatch p.1 = false)) := by
  obtain ⟨name', md', q', pfb, assets, hashed, hn', _, hmd', hq', hedit, hassets,
    hhashed, hmanEq, harEq⟩ :=
    generatePass_success_inv sign toDer sha1 fs opts order ar man h
  rw [hname] at hn'
  injection hn' with hn''
  subst hn''
  rw [hmd] at hmd'
  injection hmd' with hmd''
  subst hmd''
  rw [hq] at hq'
  injection hq' with hq''
  subst hq''
  have hman2 : man = ("pass.json", sha1 pfb) ::
      order.map (fun n => (n, sha1 ((lookupKV n md.contents).getD ""))) := by
    rw [hmanEq, readFiles_ok hhashed, List.map_map]
    rfl
  have hordnd : order.Nodup := by
    refine (List.Perm.nodup_iff hperm).mpr ?_
    exact ((hnd.filter _).filter _)
  have hmemE : ∀ f, f ∈ order ↔
      f ∈ (removeHiddenFiles md.files).filter (fun f => !(exclMatch f)) :=
    fun f => hperm.mem_iff
  have hnotpass : "pass.json" ∉ order := by
    intro hmem
    have := (List.mem_filter.mp ((hmemE _).mp hmem)).2
    have hx : exclMatch "pass.json" = true := by decide
    rw [hx] at this
    simp at this
  refine ⟨?_, ?_, ?_, ?_, ?_⟩
  · rw [hman2]
    simp [hperm.length_eq]
  · rw [hman2]
    simp only [List.map_cons, map_fst_tabulate]
    exact List.nodup_cons.mpr ⟨hnotpass, hordnd⟩
  · refine ⟨pfb, hedit, ?_⟩
    rw [hman2]
    simp [lookupKV]
  · intro f c hf hex hc
    have hfE : f ∈ (removeHiddenFiles md.files).filter (fun g => !(exclMatch g)) := by
      rw [List.mem_filter]
      exact ⟨hf, by rw [hex]; rfl⟩
    have hford : f ∈ order := (hmemE _).mpr hfE
    have hfne : "pass.json" ≠ f := by
      intro he
      rw [← he] at hex
      have hx : exclMatch "pass.json" = true := by decide
      rw [hx] at hex
      simp at hex
    rw [hman2]
    simp only [lookupKV, if_neg hfne]
    rw [lookupKV_map_fn, if_pos hford, hc]
    rfl
  · intro p hp
    rw [hman2] at hp
    rcases List.mem_cons.mp hp with he | hm
    · left
      rw [he]
    · right
      have hp1 : p.1 ∈ order := by
        have := List.mem_map.mp hm
        obtain ⟨n, hn, he⟩ := this
        rw [← he]
        exact hn
      have := List.mem_filter.mp ((hmemE _).mp hp1)
      refine ⟨this.1, ?_⟩
      have h2 := this.2
      cases hxe : exclMatch p.1
      · rfl
      · rw [hxe] at h2
        simp at h2

/-- Witness for C3: the sample run, whose model has two eligible asset
files, yields a three-entry manifest with the stated digests. -/
theorem claim3_witness :
    manEx.length = ((removeHiddenFiles mdEx.files).filter (fun f => !(exclMatch f))).length + 1 ∧
    (manEx.map Prod.fst).Nodup ∧
    (∃ b, editPassStructureB (some (filterPassOptions [])) (lookupKV "pass.json" mdEx.contents) =
        Except.ok b ∧ lookupKV "pass.json" manEx = some (sha1Ex b)) ∧
    (∀ f c, f ∈ removeHiddenFiles mdEx.files → exclMatch f = false →
      lookupKV f mdEx.contents = some c → lookupKV f manEx = some (sha1Ex c)) ∧
    (∀ p ∈ manEx, p.1 = "pass.json" ∨
      (p.1 ∈ removeHiddenFiles mdEx.files ∧ exclMatch p.1 = false)) :=
  claim3_manifest_entries signEx toDerEx sha1Ex fsEx optsEx ["icon.png", "logo.png"]
    arEx manEx "m" mdEx [] rfl rfl rfl (by decide) (List.Perm.refl _) (by decide)

/-- Counterexample to C4 as stated: with a present-but-empty filtered
override set — which is what `filterPassOptions` always returns, an
object, truthy even when empty — `editPassStructure` does not return the
base bytes unchanged: it parses and re-serializes, and the whitespace of
the base document is lost. -/
theorem claim4_counterexample :
    editPassStructure (some []) "\x7b \"a\": 1 \x7d" = Except.ok "\x7b\"a\":1\x7d" ∧
    "\x7b\"a\":1\x7d" ≠ "\x7b \"a\": 1 \x7d" :=
  ⟨rfl, by decide⟩

/-- C4 (amended): the no-op fast path of `editPassStructure` is taken
only when the overrides argument is absent (falsy); when a filtered
override set is present — even empty — the base is parsed and
re-serialized, producing the serialization of the parsed document rather
than the original bytes. -/
theorem claim4_no_op_only_when_overrides_absent (buf : String) :
    editPassStructure none buf = Except.ok buf ∧
    ∀ j, parseJson buf = Except.ok j →
      editPassStructure (some []) buf = Except.ok (stringifyJVal j) := by
  refine ⟨rfl, ?_⟩
  intro j hj
  simp only [editPassStructure, hj]
  cases j <;> rfl

/-- Witness for C4 (amended) at a concrete whitespaced document. -/
theorem claim4_witness :
    editPassStructure none "\x7b \"a\": 1 \x7d" = Except.ok "\x7b \"a\": 1 \x7d" ∧
    editPassStructure (some []) "\x7b \"a\": 1 \x7d" =
      Except.ok (stringifyJVal (JVal.jobj [("a", JVal.jnum 1)])) :=
  ⟨(claim4_no_op_only_when_overrides_absent "\x7b \"a\": 1 \x7d").1,
   (claim4_no_op_only_when_overrides_absent "\x7b \"a\": 1 \x7d").2
     (JVal.jobj [("a", JVal.jnum 1)]) rfl⟩

/-- Membership in the generalized option filter: an entry is kept exactly
when its key is in the table, the query holds a truthy value for it, and
the key's optional validator (if any) accepts that value. -/
theorem filterPassOptionsGen_mem (table : List (String × Option (JVal → Bool)))
    (query : List (String × JVal)) (k : String) (v : JVal) :
    (k, v) ∈ filterPassOptionsGen table query ↔
      ∃ t, (k, t) ∈ table ∧ lookupKV k query = some v ∧ truthy v = true ∧
        validatorOk t v = true := by
  induction table with
  | nil => simp [filterPassOptionsGen]
  | cons kt rest ih =>
      obtain ⟨k', t'⟩ := kt
      simp only [filterPassOptionsGen]
      cases hq : lookupKV k' query with
      | none =>
          dsimp only
          rw [ih]
          constructor
          · rintro ⟨t, ht, h1, h2, h3⟩
            exact ⟨t, List.mem_cons_of_mem _ ht, h1, h2, h3⟩
          · rintro ⟨t, ht, h1, h2, h3⟩
            rcases List.mem_cons.mp ht with he | hm
            · rw [Prod.mk.injEq] at he
              obtain ⟨hk, -⟩ := he
              rw [hk, hq] at h1
              exact absurd h1 (by simp)
            · exact ⟨t, hm, h1, h2, h3⟩
      | some w =>
          dsimp only
          by_cases hc : (truthy w && validatorOk t' w) = true
          · rw [if_pos hc]
            constructor
            · intro hm
              rcases List.mem_cons.mp hm with he | hm2
              · rw [Prod.mk.injEq] at he
                obtain ⟨hk, hv⟩ := he
                subst hk
                subst hv
                have hc2 := hc
                rw [Bool.and_eq_true] at hc2
                exact ⟨t', List.mem_cons_self _ _, hq, hc2.1, hc2.2⟩
              · obtain ⟨t, hm3, h1, h2, h3⟩ := ih.mp hm2
                exact ⟨t, List.mem_cons_of_mem _ hm3, h1, h2, h3⟩
            · rintro ⟨t, ht, h1, h2, h3⟩
              rcases List.mem_cons.mp ht with he | hm
              · rw [Prod.mk.injEq] at he
                obtain ⟨hk, htt⟩ := he
                subst hk
                rw [hq] at h1
                injection h1 with h1'
                rw [h1']
                exact List.mem_cons_self _ _
              · exact List.mem_cons_of_mem _ (ih.mpr ⟨t, hm, h1, h2, h3⟩)
          · rw [if_neg hc]
            rw [ih]
            constructor
            · rintro ⟨t, ht, h1, h2, h3⟩
              exact ⟨t, List.mem_cons_of_mem _ ht, h1, h2, h3⟩
            · rintro ⟨t, ht, h1, h2, h3⟩
              rcases List.mem_cons.mp ht with he | hm
              · rw [Prod.mk.injEq] at he
                obtain ⟨hk, htt⟩ := he
                subst hk
                rw [hq] at h1
                injection h1 with h1'
                exfalso
                apply hc
                rw [Bool.and_eq_true]
                subst htt
                rw [h1']
                exact ⟨h2, h3⟩
              · exact ⟨t, hm, h1, h2, h3⟩

/-- C5: `filterPassOptions` keeps exactly the recognized keys present in
the query with a truthy value — unconditionally when no validator is
registered, and only when the validator accepts the value otherwise —
passing values through unmodified; every key outside the six recognized
ones is absent from the output. -/
theorem claim5_allowlist_filter_semantics (query : List (String × JVal)) :
    (∀ table k v, (k, v) ∈ filterPassOptionsGen table query ↔
      ∃ t, (k, t) ∈ table ∧ lookupKV k query = some v ∧ truthy v = true ∧
        validatorOk t v = true) ∧
    (∀ k v, (k, v) ∈ filterPassOptions query ↔
      (k ∈ ["serialNumber", "userInfo", "expirationDate", "locations",
            "authenticationToken", "barcode"] ∧
       lookupKV k query = some v ∧ truthy v = true)) ∧
    (∀ k v, k ∉ ["serialNumber", "userInfo", "expirationDate", "locations",
            "authenticationToken", "barcode"] →
      (k, v) ∉ filterPassOptions query) := by
  have hmain : ∀ k v, (k, v) ∈ filterPassOptions query ↔
      (k ∈ ["serialNumber", "userInfo", "expirationDate", "locations",
            "authenticationToken", "barcode"] ∧
       lookupKV k query = some v ∧ truthy v = true) := by
    intro k v
    rw [filterPassOptions, filterPassOptionsGen_mem]
    constructor
    · rintro ⟨t, ht, h1, h2, h3⟩
      refine ⟨?_, h1, h2⟩
      simp only [supportedOptions, List.mem_cons, List.not_mem_nil, or_false,
        Prod.mk.injEq] at ht
      simp only [List.mem_cons, List.not_mem_nil, or_false]
      tauto
    · rintro ⟨hk, h1, h2⟩
      refine ⟨none, ?_, h1, h2, rfl⟩
      simp only [List.mem_cons, List.not_mem_nil, or_false] at hk
      simp only [supportedOptions, List.mem_cons, List.not_mem_nil, or_false,
        Prod.mk.injEq]
      tauto
  exact ⟨fun table k v => filterPassOptionsGen_mem table query k v, hmain,
    fun k v hk hm => hk ((hmain k v).mp hm).1⟩

/-- C6 is a code bug, witnessed here by evaluation: with `overrides`
absent — which the interface declares optional — `generatePass` does not
reject with the `{ status: false, error: { message, ecode: 418 } }`
shape; the `TypeError` raised by `filterPassOptions(undefined)` escapes
into the `fs.readFile` callback and the promise never settles.  The two
documented rejection messages (unknown model, missing `pass.json`) are
evaluated alongside and are distinct 418 rejections as the claim
states. -/
theorem claim6_crash_on_absent_overrides :
    generatePass signEx toDerEx sha1Ex fsEx ⟨some "m", none⟩ ["icon.png", "logo.png"] =
      GenResult.crashed msgOverridesTypeError ∧
    generatePass signEx toDerEx sha1Ex fsEx ⟨some "zzz", some []⟩ [] =
      GenResult.rejected msgNoModel 418 ∧
    generatePass signEx toDerEx sha1Ex fs2Ex ⟨some "m2", some []⟩ [] =
      GenResult.rejected msgTeapot 418 ∧
    msgTeapot ≠ msgNoModel :=
  ⟨by decide, by decide, by decide, by decide⟩

/-- Counterexample to C7 as stated: two runs with identical options
against the unchanged sample model, differing only in the completion
order of the concurrent per-file digest streams, both fulfil but archive
different `manifest.json` bytes (same entries, different insertion
order). -/
theorem claim7_counterexample :
    isSuccess (generatePass signEx toDerEx sha1Ex fsEx optsEx ["icon.png", "logo.png"]) = true ∧
    isSuccess (generatePass signEx toDerEx sha1Ex fsEx optsEx ["logo.png", "icon.png"]) = true ∧
    lookupKV "manifest.json"
        (archiveOf (generatePass signEx toDerEx sha1Ex fsEx optsEx ["icon.png", "logo.png"])) ≠
      lookupKV "manifest.json"
        (archiveOf (generatePass signEx toDerEx sha1Ex fsEx optsEx ["logo.png", "icon.png"])) :=
  ⟨by decide, by decide, by decide⟩

/-- C7 (amended): two fulfilled runs of `generatePass` with identical
options against an unchanged model, whose per-file digest completions are
permutations of each other, produce manifests equal as sets of
(name, digest) entries — byte-identical only when the completion order
coincides — and byte-identical archived content under every name other
than `manifest.json` and `signature`. -/
theorem claim7_deterministic_up_to_completion_order
    (sign : String → SignedState) (toDer : SignedState → String)
    (sha1 : String → String) (fs : List (String × ModelDir))
    (opts : GenOptions) (order1 order2 : List String)
    (ar1 man1 ar2 man2 : List (String × String))
    (hp : order1.Perm order2)
    (h1 : generatePass sign toDer sha1 fs opts order1 = .success ar1 man1)
    (h2 : generatePass sign toDer sha1 fs opts order2 = .success ar2 man2) :
    man1.Perm man2 ∧
    (∀ s : String, s ≠ "manifest.json" → s ≠ "signature" →
      lookupKV s ar1 = lookupKV s ar2) := by
  obtain ⟨name1, md1, q1, pfb1, assets1, hashed1, hn1, _, hmd1, hq1, hedit1, hassets1,
    hh1, hmanEq1, harEq1⟩ :=
    generatePass_success_inv sign toDer sha1 fs opts order1 ar1 man1 h1
  obtain ⟨name2, md2, q2, pfb2, assets2, hashed2, hn2, _, hmd2, hq2, hedit2, hassets2,
    hh2, hmanEq2, harEq2⟩ :=
    generatePass_success_inv sign toDer sha1 fs opts order2 ar2 man2 h2
  rw [hn1] at hn2
  injection hn2 with he
  subst he
  rw [hmd1] at hmd2
  injection hmd2 with he
  subst he
  rw [hq1] at hq2
  injection hq2 with he
  subst he
  rw [hedit1] at hedit2
  injection hedit2 with he
  subst he
  rw [hassets1] at hassets2
  injection hassets2 with he
  subst he
  constructor
  · rw [hmanEq1, hmanEq2, readFiles_ok hh1, readFiles_ok hh2, List.map_map, List.map_map]
    exact List.Perm.cons _ (hp.map _)
  · intro s hs1 hs2
    rw [harEq1, harEq2, List.cons_append, List.cons_append]
    by_cases hsp : "pass.json" = s
    · simp only [lookupKV, if_pos hsp]
    · simp only [lookupKV, if_neg hsp]
      rw [lookupKV_append, lookupKV_append]
      cases hla : lookupKV s assets1
      · simp only [lookupKV]
        rw [if_neg (fun he => hs1 he.symm), if_neg (fun he => hs2 he.symm),
          if_neg (fun he => hs1 he.symm), if_neg (fun he => hs2 he.symm)]
      · rfl

/-- Manifest of the sample run under the swapped completion order. -/
def man2Ex : List (String × String) :=
  [("pass.json", "2"), ("logo.png", "2"), ("icon.png", "2")]

/-- Serialized manifest bytes of the swapped-order sample run. -/
def mstr2Ex : String := "\x7b\"pass.json\":\"2\",\"logo.png\":\"2\",\"icon.png\":\"2\"\x7d"

/-- Archive of the swapped-order sample run. -/
def ar2Ex : List (String × String) :=
  [("pass.json", "\x7b\x7d"), ("icon.png", "AA"), ("logo.png", "BB"),
   ("manifest.json", mstr2Ex), ("signature", "oid;r7")]

/-- Witness for C7 (amended) at the two concrete sample runs. -/
theorem claim7_witness :
    manEx.Perm man2Ex ∧
    (∀ s : String, s ≠ "manifest.json" → s ≠ "signature" →
      lookupKV s arEx = lookupKV s ar2Ex) :=
  claim7_deterministic_up_to_completion_order signEx toDerEx sha1Ex fsEx optsEx
    ["icon.png", "logo.png"] ["logo.png", "icon.png"] arEx manEx ar2Ex man2Ex
    (List.Perm.swap "logo.png" "icon.png" []) (by decide) (by decide)

/-- C8: once a first initialization attempt has completed and marked the
module ready, every subsequent `init` call fails with the
initialize-once error before reloading any identity material, whatever
configuration it is given. -/
theorem claim8_init_fails_after_ready (st : CertState)
    (config : Option (List (String × JVal))) :
    initGuard (markReady st) config = Except.error msgInitOnce := rfl

/-- The filter pass of `push`: registered keys only grow, the surviving
candidates have pairwise distinct keys, and each survivor's key was
unregistered on entry and is registered on exit. -/
theorem pushScan_spec : ∀ (fs : List PassField) (uks : List String),
    uks ⊆ (pushScan uks fs).1 ∧
    ((pushScan uks fs).2.map PassField.key).Nodup ∧
    (∀ f ∈ (pushScan uks fs).2, f.key ∉ uks ∧ f.key ∈ (pushScan uks fs).1) := by
  intro fs
  induction fs with
  | nil =>
      intro uks
      refine ⟨fun x hx => hx, List.nodup_nil, ?_⟩
      intro f hf
      simp [pushScan] at hf
  | cons f rest ih =>
      intro uks
      by_cases hmem : f.key ∈ uks
      · simp only [pushScan, if_pos hmem]
        exact ih uks
      · have ihh := ih (uks ++ [f.key])
        have hsub2 : uks ⊆ (pushScan (uks ++ [f.key]) rest).1 :=
          fun x hx => ihh.1 (List.mem_append_left _ hx)
        have hfk : f.key ∈ (pushScan (uks ++ [f.key]) rest).1 :=
          ihh.1 (List.mem_append_right _ (List.mem_singleton_self _))
      
        by_cases hv : fieldValid f = true
        · simp only [pushScan, if_neg hmem, if_pos hv]
          refine ⟨hsub2, ?_, ?_⟩
          · simp only [List.map_cons]
            refine List.nodup_cons.mpr ⟨?_, ihh.2.1⟩
            intro hk
            obtain ⟨g, hg, hgk⟩ := List.mem_map.mp hk
            exact (ihh.2.2 g hg).1
              (hgk ▸ List.mem_append_right _ (List.mem_singleton_self _))
          · intro g hg
            rcases List.mem_cons.mp hg with rfl | hm
            · exact ⟨hmem, hfk⟩
            · exact ⟨fun hk => (ihh.2.2 g hm).1 (List.mem_append_left _ hk),
                (ihh.2.2 g hm).2⟩
        · simp only [pushScan, if_neg hmem, if_neg hv]
          refine ⟨hsub2, ihh.2.1, ?_⟩
          intro g hg
          exact ⟨fun hk => (ihh.2.2 g hg).1 (List.mem_append_left _ hk),
            (ihh.2.2 g hg).2⟩

/-- One `push` call preserves the container invariant: field keys are
pairwise distinct and every field's key is registered. -/
theorem pushFC_preserves (c : FieldsContainer) (b : List PassField)
    (h1 : (c.fields.map PassField.key).Nodup)
    (h2 : ∀ f ∈ c.fields, f.key ∈ c.uniqueKeys) :
    ((pushFC c b).1.fields.map PassField.key).Nodup ∧
    (∀ f ∈ (pushFC c b).1.fields, f.key ∈ (pushFC c b).1.uniqueKeys) := by
  obtain ⟨hsub, hnd, hmem⟩ := pushScan_spec b c.uniqueKeys
  constructor
  · simp only [pushFC, List.map_append]
    refine List.Nodup.append h1 hnd ?_
    intro k hk1 hk2
    obtain ⟨f, hf, hfk⟩ := List.mem_map.mp hk1
    obtain ⟨g, hg, hgk⟩ := List.mem_map.mp hk2
    apply (hmem g hg).1
    rw [hgk, ← hfk]
    exact h2 f hf
  · intro f hf
    simp only [pushFC] at hf ⊢
    rcases List.mem_append.mp hf with hfa | hfb
    · exact hsub (h2 f hfa)
    · exact (hmem f hfb).2

/-- C9: starting from a freshly constructed container, after any sequence
of `push` calls no two fields share a key, and every individual `push`
returns exactly the number of fields it appended — the increase in the
length of `fields`. -/
theorem claim9_unique_keys_and_returned_count
    (batches : List (List PassField)) (c : FieldsContainer) (b : List PassField) :
    ((applyPushes emptyFC batches).fields.map PassField.key).Nodup ∧
    (pushFC c b).1.fields.length = c.fields.length + (pushFC c b).2 := by
  constructor
  · suffices h : ∀ (bs : List (List PassField)) (c0 : FieldsContainer),
        (c0.fields.map PassField.key).Nodup →
        (∀ f ∈ c0.fields, f.key ∈ c0.uniqueKeys) →
        ((applyPushes c0 bs).fields.map PassField.key).Nodup ∧
        (∀ f ∈ (applyPushes c0 bs).fields, f.key ∈ (applyPushes c0 bs).uniqueKeys) by
      exact (h batches emptyFC List.nodup_nil (by intro f hf; simp [emptyFC] at hf)).1
    intro bs
    induction bs with
    | nil => intro c0 hn hk; exact ⟨hn, hk⟩
    | cons b0 rest ih =>
        intro c0 hn hk
        have step := pushFC_preserves c0 b0 hn hk
        exact ih (pushFC c0 b0).1 step.1 step.2
  · simp [pushFC]

/-- A registered key carried by no current field stays registered and is
carried by no field after any further sequence of `push` calls. -/
theorem applyPushes_key_blocked : ∀ (bs : List (List PassField))
    (c : FieldsContainer) (k : String),
    k ∈ c.uniqueKeys → (∀ g ∈ c.fields, g.key ≠ k) →
    ∀ g ∈ (applyPushes c bs).fields, g.key ≠ k := by
  intro bs
  induction bs with
  | nil => intro c k hk hnf g hg; exact hnf g hg
  | cons b rest ih =>
      intro c k hk hnf
      obtain ⟨hsub, hnd, hmem⟩ := pushScan_spec b c.uniqueKeys
      have hk' : k ∈ (pushFC c b).1.uniqueKeys := hsub hk
      have hnf' : ∀ g ∈ (pushFC c b).1.fields, g.key ≠ k := by
        intro g hg
        rcases List.mem_append.mp (by simpa [pushFC] using hg) with h | h
        · exact hnf g h
        · intro he
          exact (hmem g h).1 (he ▸ hk)
      exact ih (pushFC c b).1 k hk' hnf'

/-- C10: a candidate with an unregistered key that fails validation is
not appended (the push returns 0 and `fields` is unchanged) yet its key
is registered in `uniqueKeys`, and consequently any later push of any
field carrying that key — valid or not — never lands in `fields`. -/
theorem claim10_invalid_candidate_poisons_key (c : FieldsContainer) (f : PassField)
    (hinv : ∀ g ∈ c.fields, g.key ∈ c.uniqueKeys)
    (hnew : f.key ∉ c.uniqueKeys)
    (hbad : fieldValid f = false) :
    (pushFC c [f]).1.fields = c.fields ∧
    (pushFC c [f]).2 = 0 ∧
    f.key ∈ (pushFC c [f]).1.uniqueKeys ∧
    (∀ batches g, g.key = f.key →
      g ∉ (applyPushes (pushFC c [f]).1 batches).fields) := by
  have hcomp : pushScan c.uniqueKeys [f] = (c.uniqueKeys ++ [f.key], []) := by
    simp [pushScan, hnew, hbad]
  refine ⟨?_, ?_, ?_, ?_⟩
  · simp [pushFC, hcomp]
  · simp [pushFC, hcomp]
  · simp [pushFC, hcomp]
  · intro batches g hg hgmem
    refine applyPushes_key_blocked batches (pushFC c [f]).1 f.key ?_ ?_ g hgmem hg
    · simp [pushFC, hcomp]
    · intro g' hg'
      have hg'2 : g' ∈ c.fields := by simpa [pushFC, hcomp] using hg'
      intro he
      apply hnew
      rw [← he]
      exact hinv g' hg'2

/-- Witness for C10 at a concrete invalid candidate. -/
theorem claim10_witness :
    (pushFC emptyFC [⟨"a", false, false⟩]).1.fields = emptyFC.fields ∧
    (pushFC emptyFC [⟨"a", false, false⟩]).2 = 0 ∧
    PassField.key ⟨"a", false, false⟩ ∈ (pushFC emptyFC [⟨"a", false, false⟩]).1.uniqueKeys ∧
    (∀ batches g, g.key = PassField.key ⟨"a", false, false⟩ →
      g ∉ (applyPushes (pushFC emptyFC [⟨"a", false, false⟩]).1 batches).fields) :=
  claim10_invalid_candidate_poisons_key emptyFC ⟨"a", false, false⟩
    (by intro g hg; simp [emptyFC] at hg) (by simp [emptyFC]) rfl

/-- Sample query for the option filter: one recognized truthy key, one
unrecognized key, one recognized key with a falsy value. -/
def qEx : List (String × JVal) :=
  [("serialNumber", JVal.jstr "s1"), ("foo", JVal.jstr "x"), ("barcode", JVal.jnum 0)]

/-- Witness for C5 on the sample query: the recognized truthy key is
kept with its value untouched, the unrecognized key is dropped. -/
theorem claim5_witness :
    ("serialNumber", JVal.jstr "s1") ∈ filterPassOptions qEx ∧
    ("foo", JVal.jstr "x") ∉ filterPassOptions qEx :=
  ⟨((claim5_allowlist_filter_semantics qEx).2.1 "serialNumber" (JVal.jstr "s1")).mpr
      ⟨by decide, rfl, rfl⟩,
   (claim5_allowlist_filter_semantics qEx).2.2 "foo" (JVal.jstr "x") (by decide)⟩

/-- Witness for C8 at a concrete pre-initialization state. -/
theorem claim8_witness :
    initGuard (markReady ⟨false, 0⟩) none = Except.error msgInitOnce :=
  claim8_init_fails_after_ready ⟨false, 0⟩ none

/-- Witness for C9 at a concrete push sequence. -/
theorem claim9_witness :
    ((applyPushes emptyFC [[⟨"a", true, true⟩]]).fields.map PassField.key).Nodup ∧
    (pushFC emptyFC [⟨"a", true, true⟩]).1.fields.length =
      emptyFC.fields.length + (pushFC emptyFC [⟨"a", true, true⟩]).2 :=
  claim9_unique_keys_and_returned_count [[⟨"a", true, true⟩]] emptyFC [⟨"a", true, true⟩]
